import Mathlib

/-!
Verification of the simple S3 backup helper (src/main.py).

The script is modelled by a shallow embedding:
  * directory entries carry a path and a directory flag, as returned by
    os.scandir; modification timestamps are a function from paths to
    integers (any linearly ordered stamp works for the selection logic);
  * a filesystem directory is a list of (name, content) pairs;
  * the run-long world state records the children of the backup parent
    directory, the temp directory, the remote bucket and the trash;
  * fallible steps return Except, and the orchestration threads the world
    explicitly so that the state at an abort point is visible.
-/

set_option autoImplicit false

namespace S3Backup

/-- One entry of os.scandir on the backup parent directory: a path together
with the result of f.is_dir(). -/
structure DirEntry where
  path : String
  isDir : Bool
deriving Repr, DecidableEq

/-- The loop body of find_latest_modified_directory in src/main.py: the
accumulator holds (ret_path, newest_timestamp), both starting at None, and
an entry replaces the accumulator exactly when newest_timestamp is None or
the modification timestamp is strictly greater. -/
def latestStep (mtime : String → Int) (acc : Option String × Option Int) (p : String) :
    Option String × Option Int :=
  let modified_timestamp := mtime p
  match acc.2 with
  | none => (some p, some modified_timestamp)
  | some newest_timestamp =>
      if modified_timestamp > newest_timestamp then (some p, some modified_timestamp) else acc

/-- find_latest_modified_directory from src/main.py (lines 152-172): folds
latestStep over the given paths starting from (None, None) and returns the
ret_path component. -/
def find_latest_modified_directory (mtime : String → Int) (paths : List String) :
    Option String :=
  (paths.foldl (latestStep mtime) (none, none)).1

/-- Proof-side view of the loop once a current best exists: fold the
strict-improvement rule over the remaining paths. -/
def pickLatest (mtime : String → Int) (b : String) (ps : List String) : String :=
  ps.foldl (fun best q => if mtime q > mtime best then q else best) b

/-- find_backup_folder from src/main.py (lines 174-193): keep the scandir
entries that are directories, raise when there are none (modelled as
Except.error with the message of the raised Exception), otherwise return
whatever find_latest_modified_directory gives back. -/
def find_backup_folder (mtime : String → Int) (backup_parent_dir : String)
    (entries : List DirEntry) : Except String (Option String) :=
  let backup_folders := (entries.filter (fun e => e.isDir)).map (fun e => e.path)
  if backup_folders.length = 0 then
    Except.error ("Failed to find any backup folders in " ++ backup_parent_dir)
  else
    Except.ok (find_latest_modified_directory mtime backup_folders)

lemma foldl_latestStep_some (mtime : String → Int) (ps : List String) (b : String) :
    ps.foldl (latestStep mtime) (some b, some (mtime b)) =
      (some (pickLatest mtime b ps), some (mtime (pickLatest mtime b ps))) := by
  induction ps generalizing b with
  | nil => rfl
  | cons q ps ih =>
      show ps.foldl (latestStep mtime) (latestStep mtime (some b, some (mtime b)) q) = _
      by_cases h : mtime q > mtime b
      · simp only [latestStep, h, if_pos]
        rw [ih q]
        simp [pickLatest, h]
      · simp only [latestStep, h, if_neg, if_false]
        rw [ih b]
        simp [pickLatest, h]

lemma find_latest_nil (mtime : String → Int) :
    find_latest_modified_directory mtime [] = none := rfl

lemma find_latest_cons (mtime : String → Int) (p : String) (ps : List String) :
    find_latest_modified_directory mtime (p :: ps) = some (pickLatest mtime p ps) := by
  show ((p :: ps).foldl (latestStep mtime) (none, none)).1 = _
  rw [List.foldl_cons]
  show (ps.foldl (latestStep mtime) (some p, some (mtime p))).1 = _
  rw [foldl_latestStep_some]

lemma pickLatest_mem (mtime : String → Int) (b : String) (ps : List String) :
    pickLatest mtime b ps ∈ b :: ps := by
  induction ps generalizing b with
  | nil => simp [pickLatest]
  | cons q ps ih =>
      show pickLatest mtime (if mtime q > mtime b then q else b) ps ∈ _
      by_cases h : mtime q > mtime b
      · rw [if_pos h]
        rcases List.mem_cons.mp (ih q) with h1 | h1
        · simp [h1]
        · simp [List.mem_cons, h1]
      · rw [if_neg h]
        rcases List.mem_cons.mp (ih b) with h1 | h1
        · simp [h1]
        · simp [List.mem_cons, h1]

/-- If no remaining path strictly beats the current best, it stays. -/
lemma pickLatest_stay (mtime : String → Int) (b : String) (ps : List String)
    (h : ∀ q ∈ ps, ¬ mtime q > mtime b) : pickLatest mtime b ps = b := by
  induction ps with
  | nil => rfl
  | cons q ps ih =>
      show pickLatest mtime (if mtime q > mtime b then q else b) ps = b
      rw [if_neg (h q (List.mem_cons_self q ps))]
      exact ih fun r hr => h r (List.mem_cons_of_mem q hr)

/-- If every entry other than d is strictly older, the scan returns d. -/
lemma pickLatest_unique_max (mtime : String → Int) (d : String) (ps : List String)
    (b : String) (hd : d ∈ b :: ps)
    (hmax : ∀ p ∈ b :: ps, p ≠ d → mtime p < mtime d) :
    pickLatest mtime b ps = d := by
  induction ps generalizing b with
  | nil =>
      have : d = b := by simpa using hd
      simpa [pickLatest] using this.symm
  | cons q ps ih =>
      show pickLatest mtime (if mtime q > mtime b then q else b) ps = d
      set b' := if mtime q > mtime b then q else b with hb'
      have hb'mem : b' ∈ b :: q :: ps := by
        by_cases h : mtime q > mtime b
        · simp [hb', h]
        · simp [hb', h]
      have hmax' : ∀ p ∈ b' :: ps, p ≠ d → mtime p < mtime d := by
        intro p hp hpd
        rcases List.mem_cons.mp hp with h1 | h1
        · exact hmax p (h1 ▸ hb'mem) hpd
        · exact hmax p (by simp [List.mem_cons, h1]) hpd
      have hd' : d ∈ b' :: ps := by
        rcases List.mem_cons.mp hd with h1 | h1
        · -- d = b
          by_cases h : mtime q > mtime b
          · -- the new best is q; if q ≠ d this contradicts strict maximality
            by_cases hqd : q = d
            · rw [List.mem_cons]; left; rw [hb', if_pos h]; exact hqd.symm
            · exfalso
              have hlt := hmax q (by simp) hqd
              rw [← h1] at h
              omega
          · rw [List.mem_cons]; left; rw [hb', if_neg h]; exact h1
        · rcases List.mem_cons.mp h1 with h2 | h2
          · -- d = q
            by_cases h : mtime q > mtime b
            · rw [List.mem_cons]; left; rw [hb', if_pos h]; exact h2
            · by_cases hbd : b = d
              · rw [List.mem_cons]; left; rw [hb', if_neg h]; exact hbd.symm
              · exfalso
                have hlt := hmax b (by simp) hbd
                rw [h2] at hlt
                omega
          · exact List.mem_cons_of_mem b' h2
      exact ih b' hd' hmax'

/-- d placed after strictly older entries and before entries that never
strictly beat it wins the scan. -/
lemma pickLatest_first_max (mtime : String → Int) (d : String) (l1 l2 : List String)
    (b : String) (hb : mtime b < mtime d)
    (h1 : ∀ p ∈ l1, mtime p < mtime d)
    (h2 : ∀ p ∈ l2, mtime p ≤ mtime d) :
    pickLatest mtime b (l1 ++ d :: l2) = d := by
  induction l1 generalizing b with
  | nil =>
      show pickLatest mtime (if mtime d > mtime b then d else b) l2 = d
      rw [if_pos hb]
      exact pickLatest_stay mtime d l2 fun q hq => by
        have := h2 q hq
        omega
  | cons q l1 ih =>
      show pickLatest mtime (if mtime q > mtime b then q else b) (l1 ++ d :: l2) = d
      by_cases h : mtime q > mtime b
      · rw [if_pos h]
        exact ih q (h1 q (List.mem_cons_self q l1))
          (fun p hp => h1 p (List.mem_cons_of_mem q hp))
      · rw [if_neg h]
        exact ih b hb (fun p hp => h1 p (List.mem_cons_of_mem q hp))

/-- A filesystem directory (the temp directory, or the remote bucket seen as
a flat key space): a list of (name, content) pairs. -/
abbrev FsDir := List (String × String)

/-- Removing the file with the given name, the model of os.remove on one
entry of a directory listing. -/
def removeFile (d : FsDir) (name : String) : FsDir :=
  d.filter (fun e => !(e.1 == name))

/-- Writing a file at a name, the model of an overwriting filesystem or
object-store write: the new content replaces any entry at that name. -/
def writeFile (d : FsDir) (name content : String) : FsDir :=
  (name, content) :: removeFile d name

/-- Reading the file with the given name, if present. -/
def readFile (d : FsDir) (name : String) : Option String :=
  (d.find? (fun e => e.1 == name)).map (fun e => e.2)

/-- clean_temp_folder from src/main.py (lines 221-232): collect the names
in the temp directory that end in .zip, then os.remove each of them. -/
def clean_temp_folder (d : FsDir) : FsDir :=
  let zip_files := (d.map (fun e => e.1)).filter (fun f => f.endsWith ".zip")
  zip_files.foldl removeFile d

/-- The fixed "backup" name stem, constant BACKUP_PREFIX in src/main.py. -/
def backupStem : String := "backup"

/-- create_backup_name from src/main.py (lines 195-206); the strftime
timestamp of the run is passed in as a parameter. -/
def create_backup_name (timestamp : String) : String :=
  backupStem ++ "_" ++ timestamp

/-- The object key built inside upload_zipped_folder in src/main.py
(line 211). -/
def s3_key (machine_name backup_base_name : String) : String :=
  machine_name ++ "/" ++ backup_base_name ++ ".zip"

/-- Modelled from the spec: the content of the zip produced by the external
library call shutil.make_archive on a source directory; it is kept abstract
here and determined by the archived directory. -/
def zipContentOf (src_dir : String) : String :=
  "zip(" ++ src_dir ++ ")"

/-- Modelled from the spec: shutil.make_archive as called at src/main.py
line 268 writes the archive of src_dir to base_name ++ ".zip", overwriting
any file already at that destination. -/
def make_archive (temp : FsDir) (base_name src_dir : String) : FsDir :=
  writeFile temp (base_name ++ ".zip") (zipContentOf src_dir)

lemma foldl_removeFile (zs : List String) (d : FsDir) :
    zs.foldl removeFile d = d.filter (fun e => !(zs.any (fun z => e.1 == z))) := by
  induction zs generalizing d with
  | nil => simp
  | cons z zs ih =>
      rw [List.foldl_cons, ih, removeFile, List.filter_filter]
      apply List.filter_congr
      intro e _
      simp only [List.any_cons, Bool.not_or]
      rw [Bool.and_comm]

/-- clean_temp_folder keeps exactly the entries whose name does not end in
.zip, in their original order and with their contents unchanged. -/
lemma clean_temp_folder_eq_filter (d : FsDir) :
    clean_temp_folder d = d.filter (fun e => !(e.1.endsWith ".zip")) := by
  rw [clean_temp_folder, foldl_removeFile]
  apply List.filter_congr
  intro e he
  by_cases hz : e.1.endsWith ".zip"
  · simp only [hz, Bool.not_true]
    rw [Bool.not_eq_false']
    rw [List.any_eq_true]
    exact ⟨e.1, List.mem_filter.mpr ⟨List.mem_map_of_mem _ he, hz⟩, by simp⟩
  · simp only [hz, Bool.not_false]
    rw [Bool.not_eq_true']
    rw [List.any_eq_false]
    intro z hzmem
    rcases List.mem_filter.mp hzmem with ⟨_, hzzip⟩
    intro heq
    exact hz (by rw [eq_of_beq heq]; exact hzzip)

lemma readFile_writeFile_same (d : FsDir) (name content : String) :
    readFile (writeFile d name content) name = some content := by
  simp [readFile, writeFile, List.find?_cons_of_pos]

/-- The configuration fields of one run: CONFIG entries machine.name,
wasabi.archive_bucket_name, machine.backup_folder_path, together with the
TRASH_BACKUP_FOLDER flag set by the --trashBackupFolder argument. -/
structure RunConfig where
  machineName : String
  archiveBucketName : String
  backupFolderPath : String
  trashBackupFolder : Bool
deriving Repr, DecidableEq

/-- The state a run reads and mutates: the scandir entries of the backup
parent directory, the temp directory, the remote bucket (keys to contents),
and the list of paths sent to the trash. -/
structure World where
  entries : List DirEntry
  temp : FsDir
  bucket : FsDir
  trash : List String
deriving Repr, DecidableEq

/-- upload_zipped_folder from src/main.py (lines 208-219): builds the
object key machine_name/backup_base_name.zip and uploads the local zip
file; the boto3 transfer is external, so whether the network attempt
succeeds is the uploadOk parameter, and a failed attempt raises (modelled
as Except.error) without touching the bucket. -/
def upload_zipped_folder (uploadOk : Bool) (machine_name : String)
    (bucket temp : FsDir) (backup_base_name zipped_file_name : String) :
    Except String FsDir :=
  if uploadOk then
    match readFile temp zipped_file_name with
    | some content =>
        Except.ok (writeFile bucket (s3_key machine_name backup_base_name) content)
    | none => Except.error "upload failed: local archive not found"
  else
    Except.error "UploadError: network failure"

/-- trash_backup_folder from src/main.py (lines 234-243): send2trash moves
the backed-up directory out of its parent into the trash. -/
def trash_backup_folder (w : World) (backup_folder_path : String) : World :=
  { w with
      trash := backup_folder_path :: w.trash,
      entries := w.entries.filter (fun e => !(e.path == backup_folder_path)) }

/-- cleanup from src/main.py (lines 245-256): sweep the temp folder, then
trash the backup folder when the flag is set. -/
def cleanup (trashFlag : Bool) (w : World) (backup_folder_path : String) : World :=
  let w1 := { w with temp := clean_temp_folder w.temp }
  if trashFlag then trash_backup_folder w1 backup_folder_path else w1

/-- main from src/main.py (lines 258-274): locate the backup folder, build
the run name, archive into the temp directory, upload, then clean up. Any
raise aborts the run at that point; the returned pair is the world at exit
together with the outcome. -/
def runMain (cfg : RunConfig) (mtime : String → Int) (timestamp : String)
    (uploadOk : Bool) (w : World) : World × Except String Unit :=
  match find_backup_folder mtime cfg.backupFolderPath w.entries with
  | Except.error e => (w, Except.error e)
  | Except.ok none => (w, Except.error "no backup folder selected")
  | Except.ok (some backup_folder_path) =>
      let backup_base_name := create_backup_name timestamp
      let zipped_file_name := backup_base_name ++ ".zip"
      let w1 := { w with temp := make_archive w.temp backup_base_name backup_folder_path }
      match upload_zipped_folder uploadOk cfg.machineName w1.bucket w1.temp
          backup_base_name zipped_file_name with
      | Except.error e => (w1, Except.error e)
      | Except.ok newBucket =>
          let w2 := { w1 with bucket := newBucket }
          (cleanup cfg.trashBackupFolder w2 backup_folder_path, Except.ok ())

/-- Modelled from the spec: the external zip archiver (shutil.make_archive)
packs the walked files of the source directory, one archive member per
file, in walk order. -/
def zipDirectory (files : List (String × String)) : List (String × String) :=
  files.foldl (fun arch f => arch ++ [f]) []

/-- Modelled from the spec: extracting a zip archive emits each stored
member, in order, as a file with the stored name and content. -/
def extractZip (arch : List (String × String)) : List (String × String) :=
  arch.foldl (fun out e => out ++ [e]) []

lemma foldl_append_singleton (l acc : List (String × String)) :
    l.foldl (fun out e => out ++ [e]) acc = acc ++ l := by
  induction l generalizing acc with
  | nil => simp
  | cons x l ih => simp [ih]

lemma zipDirectory_eq (files : List (String × String)) :
    zipDirectory files = files := by
  rw [zipDirectory, foldl_append_singleton]
  simp

lemma extractZip_eq (arch : List (String × String)) :
    extractZip arch = arch := by
  rw [extractZip, foldl_append_singleton]
  simp

lemma find_latest_unique_max (mtime : String → Int) (paths : List String) (d : String)
    (hd : d ∈ paths) (hmax : ∀ p ∈ paths, p ≠ d → mtime p < mtime d) :
    find_latest_modified_directory mtime paths = some d := by
  cases paths with
  | nil => simp at hd
  | cons p ps =>
      rw [find_latest_cons]
      exact congrArg some (pickLatest_unique_max mtime d ps p hd hmax)

/-- Witness scenario: one plain file and two directories, with directory b
strictly newest; c ties with b where a tie is wanted. -/
def mtimeW : String → Int := fun p => if p = "b" then 5 else if p = "c" then 5 else 1

def entriesW : List DirEntry := [⟨"f1", false⟩, ⟨"a", true⟩, ⟨"b", true⟩]

/-- C1: for a parent directory whose immediate subdirectories have
pairwise-distinct modification timestamps, find_backup_folder returns
exactly the subdirectory with the maximum timestamp; entries that are not
directories are ignored by the filter. -/
theorem locator_returns_unique_max_directory
    (mtime : String → Int) (backup_parent_dir d : String) (entries : List DirEntry)
    (hd : d ∈ (entries.filter (fun e => e.isDir)).map (fun e => e.path))
    (hmax : ∀ p ∈ (entries.filter (fun e => e.isDir)).map (fun e => e.path),
      p ≠ d → mtime p < mtime d) :
    find_backup_folder mtime backup_parent_dir entries = Except.ok (some d) := by
  have hne : ((entries.filter (fun e => e.isDir)).map (fun e => e.path)) ≠ [] :=
    List.ne_nil_of_mem hd
  have hlen : ¬ ((entries.filter (fun e => e.isDir)).map (fun e => e.path)).length = 0 := by
    intro h0
    exact hne (List.length_eq_zero.mp h0)
  simp only [find_backup_folder]
  rw [if_neg hlen, find_latest_unique_max mtime _ d hd hmax]

theorem locator_returns_unique_max_directory_witness :
    find_backup_folder mtimeW "/backups" entriesW = Except.ok (some "b") :=
  locator_returns_unique_max_directory mtimeW "/backups" "b" entriesW
    (by decide) (by decide)

/-- C2: when the scandir enumeration yields zero subdirectories,
find_backup_folder raises instead of returning a path; the raise is
the NoCandidatesError of the spec taxonomy, carried here as the message
of the Exception in src/main.py line 191. -/
theorem locator_fails_when_no_subdirectories
    (mtime : String → Int) (backup_parent_dir : String) (entries : List DirEntry)
    (h : entries.filter (fun e => e.isDir) = []) :
    find_backup_folder mtime backup_parent_dir entries =
      Except.error ("Failed to find any backup folders in " ++ backup_parent_dir) := by
  simp [find_backup_folder, h]

theorem locator_fails_when_no_subdirectories_witness :
    find_backup_folder mtimeW "/empty" [⟨"f1", false⟩] =
      Except.error ("Failed to find any backup folders in " ++ "/empty") :=
  locator_fails_when_no_subdirectories mtimeW "/empty" [⟨"f1", false⟩] (by decide)

/-- C9: when several candidates share the greatest modification time, the
scan keeps the first one encountered (the update fires only on a strictly
greater timestamp), and exactly one candidate comes back. -/
theorem locator_tie_prefers_first_encountered
    (mtime : String → Int) (d : String) (l1 l2 : List String)
    (h1 : ∀ p ∈ l1, mtime p < mtime d)
    (h2 : ∀ p ∈ l2, mtime p ≤ mtime d) :
    find_latest_modified_directory mtime (l1 ++ d :: l2) = some d := by
  cases l1 with
  | nil =>
      simp only [List.nil_append]
      rw [find_latest_cons]
      refine congrArg some (pickLatest_stay mtime d l2 fun q hq => ?_)
      have := h2 q hq
      omega
  | cons q l1 =>
      simp only [List.cons_append]
      rw [find_latest_cons]
      exact congrArg some (pickLatest_first_max mtime d l1 l2 q
        (h1 q (List.mem_cons_self q l1))
        (fun r hr => h1 r (List.mem_cons_of_mem q hr)) h2)

theorem locator_tie_prefers_first_encountered_witness :
    find_latest_modified_directory mtimeW (["a"] ++ "b" :: ["c"]) = some "b" :=
  locator_tie_prefers_first_encountered mtimeW "b" ["a"] ["c"] (by decide) (by decide)

/-- C10: find_latest_modified_directory is total: on the empty list it
returns none, on a non-empty list it returns some element of the list;
and the none outcome never escapes find_backup_folder, which raises on an
empty candidate list before reaching the scan. -/
theorem find_latest_total_none_unreachable
    (mtime : String → Int) (paths : List String) (backup_parent_dir : String)
    (entries : List DirEntry) :
    (paths = [] → find_latest_modified_directory mtime paths = none)
    ∧ (paths ≠ [] → ∃ x, find_latest_modified_directory mtime paths = some x ∧ x ∈ paths)
    ∧ find_backup_folder mtime backup_parent_dir entries ≠ Except.ok none := by
  refine ⟨fun h => by rw [h]; rfl, fun h => ?_, ?_⟩
  · obtain ⟨p, ps, rfl⟩ := List.exists_cons_of_ne_nil h
    exact ⟨pickLatest mtime p ps, find_latest_cons mtime p ps, pickLatest_mem mtime p ps⟩
  · by_cases hlen : ((entries.filter (fun e => e.isDir)).map (fun e => e.path)).length = 0
    · simp [find_backup_folder, hlen]
    · have hne : ((entries.filter (fun e => e.isDir)).map (fun e => e.path)) ≠ [] := by
        intro hnil
        exact hlen (by rw [hnil]; rfl)
      obtain ⟨p, ps, hpps⟩ := List.exists_cons_of_ne_nil hne
      simp [find_backup_folder, hlen, hpps, find_latest_cons]

theorem find_latest_total_none_unreachable_witness :
    find_latest_modified_directory mtimeW [] = none
    ∧ ∃ x, find_latest_modified_directory mtimeW ["a", "b"] = some x ∧ x ∈ ["a", "b"] :=
  ⟨(find_latest_total_none_unreachable mtimeW [] "/backups" entriesW).1 rfl,
   (find_latest_total_none_unreachable mtimeW ["a", "b"] "/backups" entriesW).2.1
     (by decide)⟩

/-- C3: archiving a directory and extracting the resulting zip yields
exactly the original files, contents included, and the archive holds one
member per file. -/
theorem archive_extract_round_trip (files : List (String × String)) :
    extractZip (zipDirectory files) = files
    ∧ (zipDirectory files).length = files.length := by
  constructor
  · rw [zipDirectory_eq, extractZip_eq]
  · rw [zipDirectory_eq]

/-- C4: the zip sweep of clean_temp_folder keeps exactly the entries whose
name does not end in .zip — every .zip file goes, whichever run created
it, and every other file is left in place with its content unchanged. -/
theorem clean_temp_folder_sweeps_all_zips (d : FsDir) :
    clean_temp_folder d = d.filter (fun e => !(e.1.endsWith ".zip")) :=
  clean_temp_folder_eq_filter d

lemma filter_removeFile_self (d : FsDir) (n : String) :
    (removeFile d n).filter (fun e => e.1 == n) = [] := by
  rw [removeFile, List.filter_filter]
  simp

lemma writeFile_writeFile (d : FsDir) (n c1 c2 : String) :
    writeFile (writeFile d n c1) n c2 = writeFile d n c2 := by
  simp [writeFile, removeFile, List.filter_filter]

/-- C8: running make_archive again at the same destination base replaces
the existing zip: the destination holds the new content, exactly one entry
with that name remains, and a retry with the same source is a no-op. -/
theorem make_archive_overwrites (temp : FsDir) (base s1 s2 : String) :
    readFile (make_archive (make_archive temp base s1) base s2) (base ++ ".zip")
      = some (zipContentOf s2)
    ∧ ((make_archive (make_archive temp base s1) base s2).filter
        (fun e => e.1 == base ++ ".zip")).length = 1
    ∧ make_archive (make_archive temp base s2) base s2 = make_archive temp base s2 := by
  refine ⟨readFile_writeFile_same _ _ _, ?_, writeFile_writeFile _ _ _ _⟩
  show ((writeFile (make_archive temp base s1) (base ++ ".zip") (zipContentOf s2)).filter
      (fun e => e.1 == base ++ ".zip")).length = 1
  rw [writeFile, List.filter_cons]
  simp [filter_removeFile_self]

/-- Witness run fixtures: a config with the trash flag unset and a world
whose newest backup directory is b. -/
def cfgW : RunConfig :=
  { machineName := "machine1", archiveBucketName := "bucket1",
    backupFolderPath := "/backups", trashBackupFolder := false }

def tsW : String := "20120515-155045"

def wW : World :=
  { entries := entriesW,
    temp := [("stray.zip", "zip(/old)"), ("keep.txt", "notes")],
    bucket := [],
    trash := [] }

/-- C5: when the upload raises, the run aborts at that point: cleanup does
not run, so the zip this run placed in the temp directory is still there,
nothing is trashed, and the parent directory entries are unchanged; in
general the trash can change only on a run whose upload succeeded. -/
theorem upload_failure_skips_cleanup
    (cfg : RunConfig) (mtime : String → Int) (ts : String) (w : World) (p : String)
    (hfind : find_backup_folder mtime cfg.backupFolderPath w.entries
      = Except.ok (some p)) :
    ((runMain cfg mtime ts false w).2 = Except.error "UploadError: network failure")
    ∧ (runMain cfg mtime ts false w).1.temp
        = writeFile w.temp (create_backup_name ts ++ ".zip") (zipContentOf p)
    ∧ readFile (runMain cfg mtime ts false w).1.temp (create_backup_name ts ++ ".zip")
        = some (zipContentOf p)
    ∧ (runMain cfg mtime ts false w).1.trash = w.trash
    ∧ (runMain cfg mtime ts false w).1.entries = w.entries
    ∧ (∀ ok : Bool, (runMain cfg mtime ts ok w).1.trash ≠ w.trash → ok = true) := by
  have hrun : runMain cfg mtime ts false w
      = ({ w with temp := make_archive w.temp (create_backup_name ts) p },
         Except.error "UploadError: network failure") := by
    rw [runMain, hfind]
    rfl
  refine ⟨by rw [hrun], by rw [hrun]; rfl, ?_, by rw [hrun], by rw [hrun], ?_⟩
  · rw [hrun]
    exact readFile_writeFile_same _ _ _
  · intro ok hok
    cases ok with
    | true => rfl
    | false =>
        exfalso
        apply hok
        rw [hrun]

theorem upload_failure_skips_cleanup_witness :
    ((runMain cfgW mtimeW tsW false wW).2 = Except.error "UploadError: network failure")
    ∧ (runMain cfgW mtimeW tsW false wW).1.trash = wW.trash
    ∧ readFile (runMain cfgW mtimeW tsW false wW).1.temp
        (create_backup_name tsW ++ ".zip") = some (zipContentOf "b") :=
  ⟨(upload_failure_skips_cleanup cfgW mtimeW tsW wW "b" rfl).1,
   (upload_failure_skips_cleanup cfgW mtimeW tsW wW "b" rfl).2.2.2.1,
   (upload_failure_skips_cleanup cfgW mtimeW tsW wW "b" rfl).2.2.1⟩

/-- C6: when the trash flag is unset, a run never moves the source
directory: whatever the outcome, the parent directory entries and the
trash are exactly as before. -/
theorem no_trash_flag_leaves_source_untouched
    (cfg : RunConfig) (mtime : String → Int) (ts : String) (uploadOk : Bool) (w : World)
    (hflag : cfg.trashBackupFolder = false) :
    (runMain cfg mtime ts uploadOk w).1.entries = w.entries
    ∧ (runMain cfg mtime ts uploadOk w).1.trash = w.trash := by
  rw [runMain]
  rcases hf : find_backup_folder mtime cfg.backupFolderPath w.entries with e | v
  · exact ⟨rfl, rfl⟩
  · rcases v with _ | p
    · exact ⟨rfl, rfl⟩
    · cases uploadOk with
      | false => exact ⟨rfl, rfl⟩
      | true =>
          simp only [upload_zipped_folder, if_true, make_archive,
            readFile_writeFile_same, cleanup, hflag]
          simp

theorem no_trash_flag_leaves_source_untouched_witness :
    (runMain cfgW mtimeW tsW true wW).1.entries = wW.entries
    ∧ (runMain cfgW mtimeW tsW true wW).1.trash = wW.trash :=
  no_trash_flag_leaves_source_untouched cfgW mtimeW tsW true wW rfl

/-- C7: a successful run uploads under the key
machineName/backup_timestamp.zip, and the very same run name is the base
filename of the local archive written to (and then swept from) the temp
directory. -/
theorem remote_key_uses_run_backup_name
    (cfg : RunConfig) (mtime : String → Int) (ts : String) (w : World) (p : String)
    (hfind : find_backup_folder mtime cfg.backupFolderPath w.entries
      = Except.ok (some p)) :
    create_backup_name ts = "backup_" ++ ts
    ∧ (runMain cfg mtime ts true w).1.bucket
        = writeFile w.bucket (cfg.machineName ++ "/" ++ create_backup_name ts ++ ".zip")
            (zipContentOf p)
    ∧ (runMain cfg mtime ts true w).1.temp
        = clean_temp_folder
            (writeFile w.temp (create_backup_name ts ++ ".zip") (zipContentOf p))
    ∧ (runMain cfg mtime ts true w).2 = Except.ok () := by
  have hrun : runMain cfg mtime ts true w
      = (cleanup cfg.trashBackupFolder
          { w with
              temp := make_archive w.temp (create_backup_name ts) p,
              bucket := writeFile w.bucket
                (s3_key cfg.machineName (create_backup_name ts)) (zipContentOf p) } p,
         Except.ok ()) := by
    rw [runMain, hfind]
    simp only [upload_zipped_folder, if_true, make_archive, readFile_writeFile_same]
  refine ⟨rfl, ?_, ?_, by rw [hrun]⟩
  · rw [hrun]
    cases hfl : cfg.trashBackupFolder with
    | false => simp [cleanup, hfl, s3_key]
    | true => simp [cleanup, hfl, trash_backup_folder, s3_key]
  · rw [hrun]
    cases hfl : cfg.trashBackupFolder with
    | false => simp [cleanup, hfl, make_archive]
    | true => simp [cleanup, hfl, trash_backup_folder, make_archive]

theorem remote_key_uses_run_backup_name_witness :
    create_backup_name tsW = "backup_" ++ tsW
    ∧ (runMain cfgW mtimeW tsW true wW).1.bucket
        = writeFile wW.bucket
            (cfgW.machineName ++ "/" ++ create_backup_name tsW ++ ".zip")
            (zipContentOf "b")
    ∧ (runMain cfgW mtimeW tsW true wW).1.temp
        = clean_temp_folder
            (writeFile wW.temp (create_backup_name tsW ++ ".zip") (zipContentOf "b"))
    ∧ (runMain cfgW mtimeW tsW true wW).2 = Except.ok () :=
  remote_key_uses_run_backup_name cfgW mtimeW tsW wW "b" rfl

end S3Backup
